import Mathlib

/-!
Verification of the Semantic Document Index of `backend/app/nlp/semantic_search.py`
against its natural-language specification.

Modelling conventions (shallow embedding):

* Floats are modelled as rationals (`ℚ`).  Embedding vectors are `List ℚ`.
* The external Embedding Provider (`SentenceTransformer.encode`) is an explicit
  parameter `enc : String → Option Vec`; `none` models a raised exception
  (an `EmbeddingFailure` at the provider boundary).  Per the spec (§6) the
  provider is deterministic and returns fixed-dimension vectors, so the FAISS
  dimension assertion never fires and is not modelled.
* `model.encode(list)` encodes each text in order and fails if any single
  encoding fails: `List.mapM`.  On an empty input list `sentence_transformers`
  returns a rank-1 empty `numpy` array (`np.asarray([])`, shape `(0,)`), so the
  source line `dimension = embeddings.shape[1]` raises `IndexError`.  The model
  therefore treats the empty-batch build as the exception path.
* `faiss.IndexFlatL2` is modelled as its documented exact semantics: `search`
  returns the `k` smallest squared-L2 distances over all stored vectors, ties
  broken by lower stored index, and pads result slots beyond `ntotal` with
  index `-1`.  Every caller in the source skips the `-1` slots, so the model
  returns only the real hits (`min k ntotal` of them).
* Every method of the class wraps its body in `try/except Exception` and
  swallows the exception (logging only); the model encodes each such caught
  exception as the corresponding early-return value, as noted per definition.
-/

/-- A document record: `{'id': ..., 'content': ..., 'metadata': ...}` (open
key-value metadata map, spec §3). -/
structure Doc where
  id : String
  content : String
  metadata : List (String × String)
  deriving Repr, DecidableEq

/-- An embedding vector (one row of a `numpy` float array). -/
abbrev Vec := List ℚ

/-- The Embedding Provider boundary: `model.encode([t])[0]`; `none` models a
raised provider exception. -/
abbrev Encoder := String → Option Vec

/-- The mutable state of one `SemanticSearch` instance: `self.index` (the FAISS
`IndexFlatL2`, `none` when `self.index is None`, otherwise the ordered list of
stored vectors) and `self.documents`. -/
structure SState where
  index : Option (List Vec)
  documents : List Doc
  deriving Repr, DecidableEq

/-- The state produced by `SemanticSearch.__init__`: no index, no documents. -/
def initState : SState := { index := none, documents := [] }

/-- Fallback record used to express Python list indexing (`self.documents[idx]`)
with `List.getD`; every use is guarded by an in-range proof. -/
def defaultDoc : Doc := { id := "", content := "", metadata := [] }

/-- Batch encoding `model.encode([... for ...])`: encodes each text in order,
failing as a whole if any single encoding fails. -/
def encodeList (enc : Encoder) : List String → Option (List Vec)
  | [] => some []
  | t :: ts =>
    match enc t, encodeList enc ts with
    | some v, some vs => some (v :: vs)
    | _, _ => none

/-- `SemanticSearch.build_index` (lines 18-32).  `self.documents = documents` is
executed first; then the batch encode; then `dimension = embeddings.shape[1]`
(which raises `IndexError` on an empty batch); then a fresh `IndexFlatL2` is
filled.  Any exception is caught and logged, leaving `self.index` at its prior
value while the catalog assignment has already happened. -/
def build_index (enc : Encoder) (s : SState) (documents : List Doc) : SState :=
  match encodeList enc (documents.map (fun d => d.content)) with
  | none => { index := s.index, documents := documents }
  | some embs =>
    if embs.isEmpty then { index := s.index, documents := documents }
    else { index := some embs, documents := documents }

/-- `SemanticSearch.clear_index` (lines 34-43): `self.index = None`,
`self.documents = []`. -/
def clear_index (_s : SState) : SState := { index := none, documents := [] }

/-- Squared Euclidean distance between two vectors, the metric of
`faiss.IndexFlatL2`. -/
def sqDist (a b : Vec) : ℚ :=
  (List.zipWith (fun x y => (x - y) ^ 2) a b).sum

/-- The FAISS result order on (distance, stored index) pairs: smaller distance
first, ties broken by lower stored index. -/
def distLe (a b : ℚ × ℕ) : Bool :=
  decide (a.1 < b.1) || (decide (a.1 = b.1) && decide (a.2 ≤ b.2))

/-- Propositional form of `distLe`. -/
def distLeP (a b : ℚ × ℕ) : Prop :=
  a.1 < b.1 ∨ (a.1 = b.1 ∧ a.2 ≤ b.2)

/-- Every stored vector scored against the query: the brute-force scan of
`IndexFlatL2` over positions `0, ..., ntotal - 1`. -/
def scoredAll (store : List Vec) (q : Vec) : List (ℚ × ℕ) :=
  (List.range store.length).map (fun i => (sqDist q (store.getD i []), i))

/-- `self.index.search(query_vector, k)` restricted to the real hits: the
`min k ntotal` (distance, index) pairs with smallest distance, ties by lower
index; the `-1`-padded tail slots are dropped because every caller skips them. -/
def faissTopK (store : List Vec) (q : Vec) (k : ℕ) : List (ℚ × ℕ) :=
  ((scoredAll store q).mergeSort distLe).take k

/-- `SemanticSearch.search` (lines 45-66).  Unbuilt index: the raised
`ValueError` is caught by the method's own `except`, which returns `[]`.  A
provider failure on the query likewise yields `[]`.  Otherwise each hit index
is used to subscript `self.documents`; if any subscript is out of range (a
stale index), the `IndexError` discards all partial results and the method
returns `[]`. -/
def search (enc : Encoder) (s : SState) (query : String) (k : ℕ) :
    List (Doc × ℚ) :=
  match s.index with
  | none => []
  | some store =>
    match enc query with
    | none => []
    | some qv =>
      if (faissTopK store qv k).all (fun h => decide (h.2 < s.documents.length)) then
        (faissTopK store qv k).map
          (fun h => (s.documents.getD h.2 defaultDoc, 1 / (1 + h.1)))
      else []

/-- `SemanticSearch.add_document` (lines 68-82).  Unbuilt index or provider
failure: exception caught, state unchanged.  Otherwise the vector is appended
to the FAISS index and the document appended to the catalog. -/
def add_document (enc : Encoder) (s : SState) (document : Doc) : SState :=
  match s.index with
  | none => s
  | some store =>
    match enc document.content with
    | none => s
    | some v =>
      { index := some (store ++ [v]), documents := s.documents ++ [document] }

/-- The source idiom `next((i for i, doc in enumerate(docs) if pred(doc)), None)`:
index of the first document satisfying the predicate. -/
def firstIdxWhere (p : Doc → Bool) : List Doc → Option ℕ
  | [] => none
  | d :: ds => if p d then some 0 else (firstIdxWhere p ds).map (fun j => j + 1)

/-- `SemanticSearch.remove_document` (lines 84-104).  Unbuilt index: exception
caught, no change.  Absent id: a logged warning, no change.  Present id: the
catalog entry is deleted (`del self.documents[doc_idx]`) and `build_index` is
re-run on the remaining catalog (whose own internal failures are caught inside
`build_index`). -/
def remove_document (enc : Encoder) (s : SState) (document_id : String) :
    SState :=
  match s.index with
  | none => s
  | some _ =>
    match firstIdxWhere (fun d => d.id == document_id) s.documents with
    | none => s
    | some i => build_index enc s (s.documents.eraseIdx i)

/-- `SemanticSearch.update_document` (lines 106-127).  Present id: the catalog
slot is overwritten and `build_index` re-runs on the whole catalog.  Absent id:
falls through to `add_document`. -/
def update_document (enc : Encoder) (s : SState) (document : Doc) : SState :=
  match s.index with
  | none => s
  | some _ =>
    match firstIdxWhere (fun d => d.id == document.id) s.documents with
    | some i => build_index enc s (s.documents.set i document)
    | none => add_document enc s document

/-- `SemanticSearch.get_similar_documents` (lines 129-154).  Unbuilt index or
absent id: the raised `ValueError` is caught, returning `[]`.  Otherwise the
document's content is re-encoded, `k + 1` hits are fetched, hits whose id
equals the query id are skipped, and at most `k` results are returned; any
out-of-range subscript discards everything (`[]`). -/
def get_similar_documents (enc : Encoder) (s : SState) (document_id : String)
    (k : ℕ) : List (Doc × ℚ) :=
  match s.index with
  | none => []
  | some store =>
    match s.documents.find? (fun d => d.id == document_id) with
    | none => []
    | some doc =>
      match enc doc.content with
      | none => []
      | some qv =>
        if (faissTopK store qv (k + 1)).all
            (fun h => decide (h.2 < s.documents.length)) then
          (((faissTopK store qv (k + 1)).filter
              (fun h => (s.documents.getD h.2 defaultDoc).id != document_id)).map
            (fun h => (s.documents.getD h.2 defaultDoc, 1 / (1 + h.1)))).take k
        else []

/-- `SemanticSearch.get_document_embedding` (lines 156-171).  Unbuilt index,
absent id, or provider failure: the exception is caught and `np.array([])`
(the empty vector) is returned.  Note the method re-encodes the document's
content rather than reading the stored vector. -/
def get_document_embedding (enc : Encoder) (s : SState) (document_id : String) :
    Vec :=
  match s.index with
  | none => []
  | some _ =>
    match s.documents.find? (fun d => d.id == document_id) with
    | none => []
    | some doc =>
      match enc doc.content with
      | none => []
      | some v => v

/-- Dot product `np.dot` of two equal-length 1-D float arrays. -/
def dotQ (a b : Vec) : ℚ := (List.zipWith (fun x y => x * y) a b).sum

/-- Squared Euclidean norm, so that `np.linalg.norm a = Real.sqrt (normSq a)`. -/
def normSq (a : Vec) : ℚ := dotQ a a

/-- Return value of `calculate_similarity`, kept symbolic because the float
value involves irrational square roots.  `zero` is the literal `return 0.0`
(both from the `size == 0` check and from the caught `np.dot` shape-mismatch
exception); `ratio d n1 n2` is the float
`np.dot(e1, e2) / (np.linalg.norm(e1) * np.linalg.norm(e2))`, i.e. the real
number `d / (sqrt n1 * sqrt n2)` — an IEEE `0/0 = NaN` when `n1 * n2 = 0`. -/
inductive SimOutcome where
  | zero : SimOutcome
  | ratio : ℚ → ℚ → ℚ → SimOutcome
  deriving Repr, DecidableEq

/-- `SemanticSearch.calculate_similarity` (lines 173-187): fetches the two
(re-encoded) embeddings, returns `0.0` if either came back empty, otherwise the
cosine expression; an `np.dot` length-mismatch exception is caught and also
yields `0.0`.  There is no zero-magnitude guard before the division. -/
def calculate_similarity (enc : Encoder) (s : SState) (doc1_id doc2_id : String) :
    SimOutcome :=
  if (get_document_embedding enc s doc1_id).isEmpty
      || (get_document_embedding enc s doc2_id).isEmpty then .zero
  else if (get_document_embedding enc s doc1_id).length
      ≠ (get_document_embedding enc s doc2_id).length then .zero
  else .ratio
    (dotQ (get_document_embedding enc s doc1_id)
      (get_document_embedding enc s doc2_id))
    (normSq (get_document_embedding enc s doc1_id))
    (normSq (get_document_embedding enc s doc2_id))

/-- `SemanticSearch.cluster_documents` (lines 189-210).  The k-means assignment
(`kmeans.index.search(embeddings, 1)`) is external and randomized, so it is an
explicit parameter `labels` (one label per catalog position).  Unbuilt index,
provider failure, empty catalog (the `Kmeans(d=embeddings.shape[1])` empty-batch
`IndexError`), or any out-of-range label (`clusters[label]` `IndexError`): the
exception is caught and `[]` returned.  Otherwise cluster `c` collects, in
catalog order, the ids of the documents labelled `c`. -/
def cluster_documents (enc : Encoder) (labels : List ℕ) (s : SState)
    (n_clusters : ℕ) : List (List String) :=
  match s.index with
  | none => []
  | some _ =>
    match encodeList enc (s.documents.map (fun d => d.content)) with
    | none => []
    | some embs =>
      if embs.isEmpty then []
      else if labels.length ≤ s.documents.length
          && labels.all (fun l => decide (l < n_clusters)) then
        (List.range n_clusters).map (fun c =>
          ((labels.zip s.documents).filter (fun p => p.1 == c)).map
            (fun p => p.2.id))
      else []

/-- The texts passed to `model.encode` while executing `build_index`
(line 24: `[doc['content'] for doc in documents]`). -/
def build_index_encodes (documents : List Doc) : List String :=
  documents.map (fun d => d.content)

/-- The texts passed to `model.encode` while executing `add_document`
(line 76: `[document['content']]`; nothing is encoded on the unbuilt path). -/
def add_document_encodes (s : SState) (document : Doc) : List String :=
  match s.index with
  | none => []
  | some _ => [document.content]

/-- The texts passed to `model.encode` while executing `update_document`: on
the present-id path the nested `build_index` call re-encodes the whole updated
catalog; on the absent-id path `add_document` encodes the single new content. -/
def update_document_encodes (s : SState) (document : Doc) : List String :=
  match s.index with
  | none => []
  | some _ =>
    match firstIdxWhere (fun d => d.id == document.id) s.documents with
    | some i => build_index_encodes (s.documents.set i document)
    | none => add_document_encodes s document

/-- A mutating operation of the index, for stating the catalog/store invariant
over operation sequences. -/
inductive Op where
  | build : List Doc → Op
  | add : Doc → Op
  | update : Doc → Op
  | remove : String → Op
  deriving Repr

/-- One completed operation (each method catches its own exceptions, so every
call returns normally). -/
def applyOp (enc : Encoder) (s : SState) : Op → SState
  | .build docs => build_index enc s docs
  | .add d => add_document enc s d
  | .update d => update_document enc s d
  | .remove i => remove_document enc s i

/-- A completed sequence of operations. -/
def runOps (enc : Encoder) (s : SState) : List Op → SState
  | [] => s
  | op :: ops => runOps enc (applyOp enc s op) ops

/-- Number of vectors in the Vector Store (`self.index.ntotal`, `0` when the
index does not exist). -/
def storeLen (s : SState) : ℕ :=
  match s.index with
  | none => 0
  | some store => store.length

/-- Invariant I1 of the spec (§3): the Vector Store and the Document Catalog
have the same number of entries. -/
def catalogInvariant (s : SState) : Prop :=
  storeLen s = s.documents.length

/-- An Embedding Provider that never fails. -/
def encTotal (enc : Encoder) : Prop := ∀ t, (enc t).isSome

/-- Side conditions under which one operation preserves invariant I1 on the
actual code: builds must be nonempty, and a removal must not delete the last
remaining document (both restrictions stem from the failing empty-batch
rebuild, which leaves the old Vector Store in place). -/
def stepOK (s : SState) : Op → Prop
  | .build docs => docs ≠ []
  | .add _ => True
  | .update _ => True
  | .remove i =>
      s.documents.length ≠ 1 ∨ s.documents.all (fun d => d.id != i) = true

/-- `stepOK` holding before every operation of a sequence. -/
def traceOK (enc : Encoder) : SState → List Op → Prop
  | _, [] => True
  | s, op :: ops => stepOK s op ∧ traceOK enc (applyOp enc s op) ops

/-- Error taxonomy of the spec (§7). -/
inductive SemError where
  | notReady : SemError
  | notFound : SemError
  | duplicateId : SemError
  | embeddingFailure : SemError
  deriving Repr, DecidableEq

/-- Modelled from the spec (§4 `search`, §7): the spec-side contract of
`search`, for comparison with the code — it must fail with `NotReadyError` on
an Unbuilt index (the code instead catches the error and returns `[]`), and
otherwise run the same ranked brute-force scan. -/
def searchSpec (enc : Encoder) (s : SState) (query : String) (k : ℕ) :
    Except SemError (List (Doc × ℚ)) :=
  match s.index with
  | none => .error .notReady
  | some store =>
    match enc query with
    | none => .error .embeddingFailure
    | some qv =>
      .ok ((faissTopK store qv k).map
        (fun h => (s.documents.getD h.2 defaultDoc, 1 / (1 + h.1))))

/-- Modelled from the spec (§4 `calculate_similarity`): must fail with
`NotFoundError` when either id is absent, return `0.0` on a zero-magnitude
vector, and otherwise the cosine of the two stored vectors (same symbolic
`SimOutcome.ratio` rendering as the code model). -/
def calcSimSpec (enc : Encoder) (s : SState) (id1 id2 : String) :
    Except SemError SimOutcome :=
  match s.index with
  | none => .error .notReady
  | some _ =>
    match s.documents.find? (fun d => d.id == id1),
        s.documents.find? (fun d => d.id == id2) with
    | some d1, some d2 =>
      match enc d1.content, enc d2.content with
      | some e1, some e2 =>
        if normSq e1 = 0 ∨ normSq e2 = 0 then .ok .zero
        else .ok (.ratio (dotQ e1 e2) (normSq e1) (normSq e2))
      | _, _ => .error .embeddingFailure
    | _, _ => .error .notFound

/-- A concrete never-failing provider mapping every text to the vector `[0]`,
used to instantiate universally quantified theorems. -/
def encConst : Encoder := fun _ => some [(0 : ℚ)]

/-- A concrete never-failing provider mapping every text to the vector `[1]`. -/
def encOne : Encoder := fun _ => some [(1 : ℚ)]

/-- Concrete document fixture. -/
def docA : Doc := { id := "1", content := "a", metadata := [] }

/-- Concrete document fixture. -/
def docB : Doc := { id := "2", content := "b", metadata := [] }

/-- Concrete document fixture sharing `docA`'s id with different content. -/
def docC : Doc := { id := "1", content := "c", metadata := [] }

/-- A ready one-document state, as built by `build_index` from `[docA]` under
`encConst`. -/
def stA : SState := { index := some [[(0 : ℚ)]], documents := [docA] }

/-- A ready two-document state, as built by `build_index` from `[docA, docB]`
under `encConst`. -/
def stAB : SState := { index := some [[(0 : ℚ)], [(0 : ℚ)]], documents := [docA, docB] }

/-- The stale state reached by removing the last document: the old vector is
still stored while the catalog is empty. -/
def stStale : SState := { index := some [[(0 : ℚ)]], documents := [] }

/-- The search contract of claim C3 at one ready call site: the result is the
score-mapped FAISS top-k; it has `min k n` entries; every score is in `(0, 1]`;
scores are descending; every hit is a genuine (squared-distance, position)
pair; and the selected hits precede every non-selected scored pair in the
FAISS order (k smallest, ties by lower position). -/
def searchOK (enc : Encoder) (s : SState) (store : List Vec) (q : String)
    (qv : Vec) (k : ℕ) : Prop :=
  search enc s q k = (faissTopK store qv k).map
      (fun h => (s.documents.getD h.2 defaultDoc, 1 / (1 + h.1))) ∧
  (search enc s q k).length = min k store.length ∧
  (∀ r ∈ search enc s q k, 0 < r.2 ∧ r.2 ≤ 1) ∧
  (search enc s q k).Pairwise (fun a b => b.2 ≤ a.2) ∧
  (∀ p ∈ faissTopK store qv k,
    p.2 < store.length ∧ p.1 = sqDist qv (store.getD p.2 [])) ∧
  (∃ rest, (faissTopK store qv k ++ rest).Perm (scoredAll store qv) ∧
    ∀ a ∈ faissTopK store qv k, ∀ b ∈ rest, distLeP a b)

/-! ### Helper lemmas: encoding -/

theorem encodeList_length (enc : Encoder) {ts : List String} {vs : List Vec}
    (h : encodeList enc ts = some vs) : vs.length = ts.length := by
  induction ts generalizing vs with
  | nil =>
    rw [encodeList] at h
    cases h
    rfl
  | cons t ts ih =>
    rw [encodeList] at h
    cases ht : enc t with
    | none => rw [ht] at h; exact absurd h (by simp)
    | some v =>
      rw [ht] at h
      cases hts : encodeList enc ts with
      | none => rw [hts] at h; exact absurd h (by simp)
      | some ws =>
        rw [hts] at h
        cases h
        simp [ih hts]

theorem encodeList_isSome (enc : Encoder) (henc : encTotal enc)
    (ts : List String) :
    ∃ vs, encodeList enc ts = some vs ∧ vs.length = ts.length := by
  induction ts with
  | nil => exact ⟨[], rfl, rfl⟩
  | cons t ts ih =>
    obtain ⟨vs, hvs, hlen⟩ := ih
    obtain ⟨v, hv⟩ := Option.isSome_iff_exists.mp (henc t)
    refine ⟨v :: vs, ?_, by simp [hlen]⟩
    rw [encodeList, hv, hvs]

/-! ### Helper lemmas: build_index -/

theorem build_index_documents (enc : Encoder) (s : SState) (docs : List Doc) :
    (build_index enc s docs).documents = docs := by
  unfold build_index
  cases encodeList enc (docs.map (fun d => d.content)) with
  | none => rfl
  | some embs => by_cases h : embs.isEmpty <;> simp [h]

theorem build_index_ok (enc : Encoder) (s : SState) (docs : List Doc)
    {embs : List Vec}
    (h : encodeList enc (docs.map (fun d => d.content)) = some embs)
    (hne : embs ≠ []) :
    build_index enc s docs = { index := some embs, documents := docs } := by
  unfold build_index
  rw [h]
  simp [List.isEmpty_iff, hne]

theorem build_index_total (enc : Encoder) (henc : encTotal enc) (s : SState)
    (docs : List Doc) (hne : docs ≠ []) :
    ∃ embs, encodeList enc (docs.map (fun d => d.content)) = some embs ∧
      embs.length = docs.length ∧
      build_index enc s docs = { index := some embs, documents := docs } := by
  obtain ⟨embs, hembs, hlen⟩ :=
    encodeList_isSome enc henc (docs.map (fun d => d.content))
  rw [List.length_map] at hlen
  have hne' : embs ≠ [] := by
    intro h0
    apply hne
    subst h0
    cases docs with
    | nil => rfl
    | cons d ds => exact absurd hlen (by simp)
  exact ⟨embs, hembs, hlen, build_index_ok enc s docs hembs hne'⟩

theorem build_index_empty (enc : Encoder) (s : SState) :
    build_index enc s [] = { index := s.index, documents := [] } := by
  rfl

/-! ### Helper lemmas: distances and scores -/

theorem sqDist_nonneg (q v : Vec) : 0 ≤ sqDist q v := by
  unfold sqDist
  induction q generalizing v with
  | nil => simp
  | cons x xs ih =>
    cases v with
    | nil => simp
    | cons y ys =>
      simp only [List.zipWith_cons_cons, List.sum_cons]
      have := ih ys
      positivity

theorem score_pos {d : ℚ} (hd : 0 ≤ d) : 0 < 1 / (1 + d) := by positivity

theorem score_le_one {d : ℚ} (hd : 0 ≤ d) : 1 / (1 + d) ≤ 1 := by
  rw [div_le_one (by linarith)]
  linarith

theorem score_antitone {a b : ℚ} (ha : 0 ≤ a) (hab : a ≤ b) :
    1 / (1 + b) ≤ 1 / (1 + a) := by
  apply one_div_le_one_div_of_le <;> linarith

/-! ### Helper lemmas: the FAISS order -/

theorem distLe_iff (a b : ℚ × ℕ) : distLe a b = true ↔ distLeP a b := by
  unfold distLe distLeP
  simp

theorem distLe_trans (a b c : ℚ × ℕ) (hab : distLe a b = true)
    (hbc : distLe b c = true) : distLe a c = true := by
  rw [distLe_iff] at *
  rcases hab with h1 | ⟨h1, h1'⟩ <;> rcases hbc with h2 | ⟨h2, h2'⟩
  · exact Or.inl (lt_trans h1 h2)
  · exact Or.inl (h2 ▸ h1)
  · exact Or.inl (h1 ▸ h2)
  · exact Or.inr ⟨h1.trans h2, h1'.trans h2'⟩

theorem distLe_total (a b : ℚ × ℕ) : (distLe a b || distLe b a) = true := by
  simp only [Bool.or_eq_true, distLe_iff]
  unfold distLeP
  rcases lt_trichotomy a.1 b.1 with h | h | h
  · exact Or.inl (Or.inl h)
  · rcases Nat.le_total a.2 b.2 with h2 | h2
    · exact Or.inl (Or.inr ⟨h, h2⟩)
    · exact Or.inr (Or.inr ⟨h.symm, h2⟩)
  · exact Or.inr (Or.inl h)

theorem distLeP_fst {a b : ℚ × ℕ} (h : distLeP a b) : a.1 ≤ b.1 := by
  rcases h with h | ⟨h, _⟩
  · exact le_of_lt h
  · exact le_of_eq h

/-! ### Helper lemmas: scoredAll and faissTopK -/

theorem scoredAll_length (store : List Vec) (q : Vec) :
    (scoredAll store q).length = store.length := by
  simp [scoredAll]

theorem mem_scoredAll {store : List Vec} {q : Vec} {p : ℚ × ℕ} :
    p ∈ scoredAll store q ↔
      p.2 < store.length ∧ p.1 = sqDist q (store.getD p.2 []) := by
  unfold scoredAll
  rw [List.mem_map]
  constructor
  · rintro ⟨i, hi, rfl⟩
    exact ⟨List.mem_range.mp hi, rfl⟩
  · rintro ⟨hlt, hfst⟩
    refine ⟨p.2, List.mem_range.mpr hlt, ?_⟩
    rw [← hfst]

theorem faissTopK_subset {store : List Vec} {q : Vec} {k : ℕ} {p : ℚ × ℕ}
    (h : p ∈ faissTopK store q k) : p ∈ scoredAll store q := by
  unfold faissTopK at h
  exact List.mem_mergeSort.mp (List.mem_of_mem_take h)

theorem faissTopK_length (store : List Vec) (q : Vec) (k : ℕ) :
    (faissTopK store q k).length = min k store.length := by
  unfold faissTopK
  rw [List.length_take, List.length_mergeSort, scoredAll_length]

theorem faissTopK_sorted (store : List Vec) (q : Vec) (k : ℕ) :
    (faissTopK store q k).Pairwise distLeP := by
  have hs : ((scoredAll store q).mergeSort distLe).Pairwise
      (fun a b => distLe a b = true) :=
    List.sorted_mergeSort distLe_trans distLe_total (scoredAll store q)
  have := List.Pairwise.sublist (List.take_sublist k _) hs
  exact this.imp (fun h => (distLe_iff _ _).mp h)

theorem faissTopK_split (store : List Vec) (q : Vec) (k : ℕ) :
    ∃ rest, (faissTopK store q k ++ rest).Perm (scoredAll store q) ∧
      ∀ a ∈ faissTopK store q k, ∀ b ∈ rest, distLeP a b := by
  refine ⟨((scoredAll store q).mergeSort distLe).drop k, ?_, ?_⟩
  · rw [faissTopK, List.take_append_drop]
    exact List.mergeSort_perm (scoredAll store q) distLe
  · have hs : ((scoredAll store q).mergeSort distLe).Pairwise
        (fun a b => distLe a b = true) :=
      List.sorted_mergeSort distLe_trans distLe_total (scoredAll store q)
    have hsplit := List.take_append_drop k ((scoredAll store q).mergeSort distLe)
    rw [← hsplit] at hs
    have := (List.pairwise_append.mp hs).2.2
    intro a ha b hb
    exact (distLe_iff a b).mp (this a ha b hb)

/-! ### Helper lemmas: results only ever contain catalog documents -/

theorem search_mem {enc : Encoder} {s : SState} {q : String} {k : ℕ} :
    ∀ r ∈ search enc s q k, r.1 ∈ s.documents := by
  intro r hr
  unfold search at hr
  split at hr
  · exact absurd hr (by simp)
  · split at hr
    · exact absurd hr (by simp)
    · split at hr
      · rename_i hall
        obtain ⟨h, hh, rfl⟩ := List.mem_map.mp hr
        have hlt : h.2 < s.documents.length :=
          of_decide_eq_true (List.all_eq_true.mp hall h hh)
        rw [List.getD_eq_getElem _ _ hlt]
        exact List.getElem_mem hlt
      · exact absurd hr (by simp)

theorem get_similar_documents_mem {enc : Encoder} {s : SState}
    {document_id : String} {k : ℕ} :
    ∀ r ∈ get_similar_documents enc s document_id k, r.1 ∈ s.documents := by
  intro r hr
  unfold get_similar_documents at hr
  split at hr
  · exact absurd hr (by simp)
  · split at hr
    · exact absurd hr (by simp)
    · split at hr
      · exact absurd hr (by simp)
      · split at hr
        · rename_i hall
          obtain ⟨h, hh, rfl⟩ := List.mem_map.mp (List.mem_of_mem_take hr)
          have hmem := List.mem_of_mem_filter hh
          have hlt : h.2 < s.documents.length :=
            of_decide_eq_true (List.all_eq_true.mp hall h hmem)
          rw [List.getD_eq_getElem _ _ hlt]
          exact List.getElem_mem hlt
        · exact absurd hr (by simp)

/-! ### Helper lemmas: firstIdxWhere -/

theorem firstIdxWhere_eq_none {p : Doc → Bool} {l : List Doc}
    (h : ∀ d ∈ l, p d = false) : firstIdxWhere p l = none := by
  induction l with
  | nil => rfl
  | cons d ds ih =>
    have hd := h d (by simp)
    have hds := ih (fun x hx => h x (by simp [hx]))
    simp [firstIdxWhere, hd, hds]

theorem firstIdxWhere_some_spec {p : Doc → Bool} {l : List Doc} {j : ℕ}
    (h : firstIdxWhere p l = some j) :
    j < l.length ∧ ∃ d ∈ l, p d = true := by
  induction l generalizing j with
  | nil => cases h
  | cons d ds ih =>
    rw [firstIdxWhere] at h
    by_cases hd : p d = true
    · rw [if_pos hd] at h
      obtain rfl : (0 : ℕ) = j := Option.some.inj h
      exact ⟨by simp, d, by simp, hd⟩
    · rw [if_neg hd] at h
      cases hj : firstIdxWhere p ds with
      | none => rw [hj] at h; cases h
      | some j' =>
        rw [hj] at h
        obtain rfl : j' + 1 = j := Option.some.inj h
        obtain ⟨hlt, d', hd', hp⟩ := ih hj
        exact ⟨by simpa using Nat.succ_lt_succ hlt, d', by simp [hd'], hp⟩

theorem eraseIdx_id_not_mem {rid : String} {l : List Doc} {j : ℕ}
    (hnd : (l.map (fun d => d.id)).Nodup)
    (h : firstIdxWhere (fun d => d.id == rid) l = some j) :
    ∀ d ∈ l.eraseIdx j, d.id ≠ rid := by
  induction l generalizing j with
  | nil => cases h
  | cons x xs ih =>
    rw [firstIdxWhere] at h
    by_cases hx : (x.id == rid) = true
    · rw [if_pos hx] at h
      obtain rfl : (0 : ℕ) = j := Option.some.inj h
      rw [List.eraseIdx_cons_zero]
      intro d hd hdi
      rw [List.map_cons, List.nodup_cons] at hnd
      apply hnd.1
      rw [beq_iff_eq] at hx
      rw [hx, ← hdi]
      exact List.mem_map.mpr ⟨d, hd, rfl⟩
    · rw [if_neg hx] at h
      cases hj : firstIdxWhere (fun d => d.id == rid) xs with
      | none => rw [hj] at h; cases h
      | some j' =>
        rw [hj] at h
        obtain rfl : j' + 1 = j := Option.some.inj h
        rw [List.eraseIdx_cons_succ]
        intro d hd
        rcases List.mem_cons.mp hd with rfl | hd'
        · exact fun hc => hx (by rw [beq_iff_eq]; exact hc)
        · rw [List.map_cons, List.nodup_cons] at hnd
          exact ih hnd.2 hj d hd'

theorem remove_document_absent (enc : Encoder) (s : SState) (rid : String)
    (h : ∀ d ∈ s.documents, d.id ≠ rid) : remove_document enc s rid = s := by
  have hnone : firstIdxWhere (fun d => d.id == rid) s.documents = none :=
    firstIdxWhere_eq_none (fun d hd => beq_eq_false_iff_ne.mpr (h d hd))
  unfold remove_document
  split
  · rfl
  · simp [hnone]

/-! ### Helper lemmas: the catalog/store invariant under each operation -/

theorem catalogInvariant_build (enc : Encoder) (henc : encTotal enc)
    (s : SState) (docs : List Doc) (hne : docs ≠ []) :
    catalogInvariant (build_index enc s docs) := by
  obtain ⟨embs, _, hlen, heq⟩ := build_index_total enc henc s docs hne
  rw [heq]
  unfold catalogInvariant storeLen
  simpa using hlen

theorem catalogInvariant_add (enc : Encoder) (s : SState) (d : Doc)
    (hs : catalogInvariant s) : catalogInvariant (add_document enc s d) := by
  unfold add_document
  split
  · exact hs
  · rename_i store hstore
    split
    · exact hs
    · unfold catalogInvariant storeLen at hs ⊢
      rw [hstore] at hs
      simp at hs ⊢
      omega

theorem catalogInvariant_update (enc : Encoder) (henc : encTotal enc)
    (s : SState) (d : Doc) (hs : catalogInvariant s) :
    catalogInvariant (update_document enc s d) := by
  unfold update_document
  split
  · exact hs
  · split
    · rename_i j hj
      apply catalogInvariant_build enc henc
      obtain ⟨hjlt, -⟩ := firstIdxWhere_some_spec hj
      intro h0
      rw [← List.length_eq_zero, List.length_set] at h0
      omega
    · exact catalogInvariant_add enc s d hs

theorem catalogInvariant_remove (enc : Encoder) (henc : encTotal enc)
    (s : SState) (rid : String) (hs : catalogInvariant s)
    (hok : s.documents.length ≠ 1 ∨
      s.documents.all (fun d => d.id != rid) = true) :
    catalogInvariant (remove_document enc s rid) := by
  unfold remove_document
  split
  · exact hs
  · split
    · exact hs
    · rename_i j hj
      obtain ⟨hjlt, d, hd, hpd⟩ := firstIdxWhere_some_spec hj
      have hlen1 : s.documents.length ≠ 1 := by
        rcases hok with h | h
        · exact h
        · have := List.all_eq_true.mp h d hd
          rw [bne_iff_ne] at this
          exact absurd (beq_iff_eq.mp hpd) this
      apply catalogInvariant_build enc henc
      intro h0
      rw [← List.length_eq_zero, List.length_eraseIdx, if_pos hjlt] at h0
      omega

theorem catalogInvariant_applyOp (enc : Encoder) (henc : encTotal enc)
    (s : SState) (op : Op) (hs : catalogInvariant s) (hok : stepOK s op) :
    catalogInvariant (applyOp enc s op) := by
  cases op with
  | build docs => exact catalogInvariant_build enc henc s docs hok
  | add d => exact catalogInvariant_add enc s d hs
  | update d => exact catalogInvariant_update enc henc s d hs
  | remove i => exact catalogInvariant_remove enc henc s i hs hok

/-! ### Helper lemmas: Cauchy-Schwarz for the cosine numerator -/

theorem normSq_nonneg (a : Vec) : 0 ≤ normSq a := by
  unfold normSq dotQ
  induction a with
  | nil => simp
  | cons x xs ih =>
    simp only [List.zipWith_cons_cons, List.sum_cons]
    nlinarith [mul_self_nonneg x]

theorem dotQ_sq_le (a b : Vec) : dotQ a b ^ 2 ≤ normSq a * normSq b := by
  induction a generalizing b with
  | nil => simp [dotQ, normSq]
  | cons x xs ih =>
    cases b with
    | nil =>
      simp only [dotQ, normSq, List.zipWith_nil_right, List.sum_nil]
      nlinarith [normSq_nonneg (x :: xs), normSq_nonneg ([] : Vec),
        (by simp [normSq, dotQ] : normSq ([] : Vec) = 0)]
    | cons y ys =>
      have hD := ih ys
      have hA : 0 ≤ normSq xs := normSq_nonneg xs
      have hB : 0 ≤ normSq ys := normSq_nonneg ys
      have e1 : dotQ (x :: xs) (y :: ys) = x * y + dotQ xs ys := by
        simp [dotQ]
      have e2 : normSq (x :: xs) = x * x + normSq xs := by
        simp [normSq, dotQ]
      have e3 : normSq (y :: ys) = y * y + normSq ys := by
        simp [normSq, dotQ]
      rw [e1, e2, e3]
      rcases lt_or_eq_of_le hB with hBpos | hB0
      · nlinarith [sq_nonneg (x * normSq ys - y * dotQ xs ys),
          mul_nonneg (sq_nonneg y) (sub_nonneg.mpr hD),
          mul_nonneg hB (sub_nonneg.mpr hD)]
      · have hD0 : dotQ xs ys = 0 := by nlinarith [sq_nonneg (dotQ xs ys)]
        rw [hD0, ← hB0]
        nlinarith [sq_nonneg y, mul_nonneg hA (sq_nonneg y)]

/-! ### Helper lemmas: search on a coherent ready state -/

theorem search_eq_of_ready (enc : Encoder) (s : SState) (store : List Vec)
    (q : String) (qv : Vec) (k : ℕ) (hidx : s.index = some store)
    (hlen : store.length = s.documents.length) (henc : enc q = some qv) :
    search enc s q k = (faissTopK store qv k).map
      (fun h => (s.documents.getD h.2 defaultDoc, 1 / (1 + h.1))) := by
  have hall : (faissTopK store qv k).all
      (fun h => decide (h.2 < s.documents.length)) = true := by
    rw [List.all_eq_true]
    intro p hp
    have := (mem_scoredAll.mp (faissTopK_subset hp)).1
    exact decide_eq_true (hlen ▸ this)
  unfold search
  rw [hidx]
  simp only [henc, hall, if_true]

theorem get_document_embedding_absent (enc : Encoder) (s : SState)
    (store : List Vec) (i : String) (hidx : s.index = some store)
    (h : s.documents.find? (fun d => d.id == i) = none) :
    get_document_embedding enc s i = [] := by
  unfold get_document_embedding
  rw [hidx]
  simp only [h]

theorem get_document_embedding_present (enc : Encoder) (s : SState)
    (store : List Vec) (i : String) (d : Doc) (v : Vec)
    (hidx : s.index = some store)
    (hf : s.documents.find? (fun x => x.id == i) = some d)
    (hv : enc d.content = some v) : get_document_embedding enc s i = v := by
  unfold get_document_embedding
  rw [hidx]
  simp only [hf, hv]

/-! ### Claims -/

/-- C1, counterexample.  The claim says the Vector Store and Document Catalog
have equal sizes after every completed operation.  On a fresh instance, the
completed sequence `build([docA]); remove("1")` ends with 1 stored vector and
0 catalog entries: removing the last document triggers a rebuild on the empty
catalog, whose `embeddings.shape[1]` raises, is caught, and leaves the old
vector store in place. -/
theorem C1_counterexample :
    storeLen (runOps encConst initState [Op.build [docA], Op.remove "1"]) = 1 ∧
    (runOps encConst initState [Op.build [docA], Op.remove "1"]).documents
      = [] := by
  exact ⟨rfl, rfl⟩

/-- C1, amended: the invariant `len(VectorStore) = len(DocumentCatalog)` holds
after every completed operation of any sequence, provided the Embedding
Provider never fails, every `build` input is nonempty, and no `remove` deletes
the last remaining document (the `stepOK`/`traceOK` side conditions).  Since
the quantification ranges over all operation lists, the invariant at every
intermediate state follows by instantiating with each prefix. -/
theorem C1_invariant (enc : Encoder) (henc : encTotal enc) (ops : List Op) :
    ∀ s, catalogInvariant s → traceOK enc s ops →
      catalogInvariant (runOps enc s ops) := by
  induction ops with
  | nil => exact fun s hs _ => hs
  | cons op ops ih =>
    intro s hs hok
    exact ih _ (catalogInvariant_applyOp enc henc s op hs hok.1) hok.2

/-- C1, witness: the amended invariant theorem applied to a concrete
build-then-add run under the constant provider. -/
theorem C1_invariant_witness :
    encTotal encConst ∧
    traceOK encConst initState [Op.build [docA], Op.add docB] ∧
    catalogInvariant (runOps encConst initState [Op.build [docA], Op.add docB]) :=
  have h1 : encTotal encConst := fun _ => rfl
  have h2 : traceOK encConst initState [Op.build [docA], Op.add docB] :=
    ⟨by simp [stepOK], trivial, trivial⟩
  ⟨h1, h2, C1_invariant encConst h1 [Op.build [docA], Op.add docB] initState rfl h2⟩

/-- C2, counterexample.  The claim says a build with a failing Embedding
Provider leaves the index exactly in its prior state.  In the code
`self.documents = documents` runs before the encode, so after the failed build
the catalog already holds the new list: the state is not the prior one. -/
theorem C2_counterexample :
    (build_index (fun _ => none)
        { index := some [[(0 : ℚ)]], documents := [docA] } [docB]).documents
      = [docB] ∧
    build_index (fun _ => none)
        { index := some [[(0 : ℚ)]], documents := [docA] } [docB]
      ≠ { index := some [[(0 : ℚ)]], documents := [docA] } := by
  exact ⟨rfl, by decide⟩

/-- C2, amended: when the Embedding Provider fails during `build`, the
exception is caught and logged; the Vector Store keeps its prior contents, but
the Document Catalog has already been replaced by the new document list, so a
partial mutation is visible (I1 can be broken). -/
theorem C2_failed_build (enc : Encoder) (s : SState) (docs : List Doc)
    (h : encodeList enc (docs.map (fun d => d.content)) = none) :
    build_index enc s docs = { index := s.index, documents := docs } := by
  unfold build_index
  rw [h]

/-- C2, witness: the failed-build theorem applied to a concrete ready state
and an always-failing provider. -/
theorem C2_failed_build_witness :
    build_index (fun _ => none)
        { index := some [[(0 : ℚ)]], documents := [docA] } [docB]
      = { index := some [[(0 : ℚ)]], documents := [docB] } :=
  C2_failed_build (fun _ => none)
    { index := some [[(0 : ℚ)]], documents := [docA] } [docB] rfl

/-- C3, confirmed: on a ready index whose store and catalog agree in length,
with the query encoding to `qv`, `search` scores every stored vector by
squared Euclidean distance, keeps the `min k n` smallest (ties by lower
catalog position), maps each distance `d` to the score `1 / (1 + d)` — hence
every score lies in `(0, 1]` — and returns the pairs sorted by descending
score (`searchOK` bundles exactly these properties). -/
theorem C3_search (enc : Encoder) (s : SState) (store : List Vec) (q : String)
    (qv : Vec) (k : ℕ) (hidx : s.index = some store)
    (hlen : store.length = s.documents.length) (henc : enc q = some qv) :
    searchOK enc s store q qv k := by
  have heq := search_eq_of_ready enc s store q qv k hidx hlen henc
  have hmemk : ∀ p ∈ faissTopK store qv k,
      p.2 < store.length ∧ p.1 = sqDist qv (store.getD p.2 []) :=
    fun p hp => mem_scoredAll.mp (faissTopK_subset hp)
  refine ⟨heq, ?_, ?_, ?_, hmemk, faissTopK_split store qv k⟩
  · rw [heq, List.length_map, faissTopK_length]
  · intro r hr
    rw [heq] at hr
    obtain ⟨p, hp, rfl⟩ := List.mem_map.mp hr
    have hd : 0 ≤ p.1 := by
      rw [(hmemk p hp).2]
      exact sqDist_nonneg qv (store.getD p.2 [])
    exact ⟨score_pos hd, score_le_one hd⟩
  · rw [heq]
    rw [List.pairwise_map]
    refine (faissTopK_sorted store qv k).imp_of_mem ?_
    intro a b ha _ hab
    have hda : 0 ≤ a.1 := by
      rw [(hmemk a ha).2]
      exact sqDist_nonneg qv (store.getD a.2 [])
    exact score_antitone hda (distLeP_fst hab)

/-- C3, witness: the search contract applied to a ready two-document state. -/
theorem C3_search_witness :
    searchOK encConst stAB [[(0 : ℚ)], [(0 : ℚ)]] "q" [(0 : ℚ)] 1 :=
  C3_search encConst stAB [[(0 : ℚ)], [(0 : ℚ)]] "q" [(0 : ℚ)] 1 rfl rfl rfl

/-- C4, counterexample.  The claim says adding a document whose id is already
present fails with `DuplicateIdError` and commits no mutation.  The code never
checks for duplicates: adding `docC` (same id as the stored `docA`) commits a
mutation, leaving two catalog entries with id `"1"`. -/
theorem C4_counterexample :
    (add_document encConst stA docC).documents = [docA, docC] ∧
    docA.id = docC.id := by
  exact ⟨rfl, rfl⟩

/-- C4, amended: `add` performs no duplicate-id check.  For every ready index
and every document whose content encodes successfully, `add` appends the
document and its vector at the same new final position, leaving existing
entries untouched — whether or not the id is already present — and never
raises `DuplicateIdError`. -/
theorem C4_add (enc : Encoder) (s : SState) (store : List Vec) (d : Doc)
    (v : Vec) (hidx : s.index = some store) (henc : enc d.content = some v) :
    add_document enc s d
      = { index := some (store ++ [v]), documents := s.documents ++ [d] } := by
  unfold add_document
  rw [hidx]
  simp only [henc]

/-- C4, witness: the append theorem applied at a duplicate id. -/
theorem C4_add_witness :
    add_document encConst stA docC
      = { index := some [[(0 : ℚ)], [(0 : ℚ)]], documents := [docA, docC] } :=
  C4_add encConst stA [[(0 : ℚ)]] docC [(0 : ℚ)] rfl rfl

/-- C5, counterexample.  The claim says `remove` with a present id rebuilds the
entire Vector Store from the remaining catalog.  Removing the only document of
a ready one-document index deletes the catalog entry, but the empty rebuild
fails internally (empty-batch `IndexError`, caught) and the old Vector Store —
still holding the removed document's vector — stays in place. -/
theorem C5_counterexample :
    remove_document encConst stA "1"
      = { index := some [[(0 : ℚ)]], documents := [] } := by
  exact rfl

/-- C5, amended: on a ready index with unique ids, `remove(id)` with an absent
id is a no-op (a warning is logged, nothing is raised); with the id at catalog
position `j` it deletes the catalog entry at `j` and — when the remaining
catalog is nonempty — rebuilds the Vector Store by re-encoding every remaining
document, while removing the last document leaves the stale old Vector Store
in place; in either case `search` and `get_similar_documents` never return the
removed id afterwards, and a second `remove(id)` is again a no-op. -/
theorem C5_remove (enc : Encoder) (s : SState) (store : List Vec)
    (rid : String) (hidx : s.index = some store)
    (hnd : (s.documents.map (fun d => d.id)).Nodup) :
    ((∀ d ∈ s.documents, d.id ≠ rid) → remove_document enc s rid = s) ∧
    (∀ j, firstIdxWhere (fun d => d.id == rid) s.documents = some j →
      (remove_document enc s rid).documents = s.documents.eraseIdx j ∧
      (s.documents.eraseIdx j = [] →
        (remove_document enc s rid).index = s.index) ∧
      (∀ embs, encodeList enc
          ((s.documents.eraseIdx j).map (fun d => d.content)) = some embs →
        embs ≠ [] → (remove_document enc s rid).index = some embs) ∧
      (∀ q k r, r ∈ search enc (remove_document enc s rid) q k →
        r.1.id ≠ rid) ∧
      (∀ k r, r ∈ get_similar_documents enc (remove_document enc s rid) rid k →
        r.1.id ≠ rid) ∧
      remove_document enc (remove_document enc s rid) rid
        = remove_document enc s rid) := by
  constructor
  · exact remove_document_absent enc s rid
  · intro j hj
    have hrm : remove_document enc s rid
        = build_index enc s (s.documents.eraseIdx j) := by
      unfold remove_document
      rw [hidx]
      simp only [hj]
    have hdocs : (remove_document enc s rid).documents
        = s.documents.eraseIdx j := by
      rw [hrm, build_index_documents]
    have hnot : ∀ d ∈ s.documents.eraseIdx j, d.id ≠ rid :=
      eraseIdx_id_not_mem hnd hj
    refine ⟨hdocs, ?_, ?_, ?_, ?_, ?_⟩
    · intro h0
      rw [hrm, h0, build_index_empty]
    · intro embs hembs hne
      rw [hrm, build_index_ok enc s _ hembs hne]
    · intro q k r hr
      have := search_mem r hr
      rw [hdocs] at this
      exact hnot r.1 this
    · intro k r hr
      have := get_similar_documents_mem r hr
      rw [hdocs] at this
      exact hnot r.1 this
    · apply remove_document_absent
      rw [hdocs]
      exact hnot

/-- C5, witness: the remove theorem applied to a ready two-document state,
removing id "1" from position 0 and rebuilding the store from the remaining
document. -/
theorem C5_remove_witness :
    (remove_document encConst stAB "1").documents = [docB] ∧
    (remove_document encConst stAB "1").index = some [[(0 : ℚ)]] ∧
    remove_document encConst (remove_document encConst stAB "1") "1"
      = remove_document encConst stAB "1" :=
  have h := (C5_remove encConst stAB [[(0 : ℚ)], [(0 : ℚ)]] "1" rfl
    (by decide)).2 0 rfl
  ⟨h.1, h.2.2.1 [[(0 : ℚ)]] rfl (by decide), h.2.2.2.2.2⟩

/-- C6, counterexample.  The claim says `update` on a pre-existing id
re-encodes only that position's vector in place, with no full rebuild.  On a
two-document index, updating the document at position 0 passes both catalog
contents to the Embedding Provider — a full rebuild, not a single re-encode. -/
theorem C6_counterexample :
    update_document_encodes stAB docC = ["c", "b"] ∧
    update_document_encodes stAB docC ≠ [docC.content] := by
  exact ⟨rfl, by decide⟩

/-- C6, amended: `update(doc)` with `doc.id` at catalog position `j` replaces
the document at that position and performs a full rebuild, re-encoding every
document of the updated catalog (not only position `j`); the catalog length is
unchanged.  With `doc.id` absent it behaves exactly as `add` (encoding only
the new content). -/
theorem C6_update (enc : Encoder) (s : SState) (store : List Vec) (d : Doc)
    (hidx : s.index = some store) :
    (∀ j, firstIdxWhere (fun x => x.id == d.id) s.documents = some j →
      update_document enc s d = build_index enc s (s.documents.set j d) ∧
      (update_document enc s d).documents = s.documents.set j d ∧
      (update_document enc s d).documents.length = s.documents.length ∧
      update_document_encodes s d
        = (s.documents.set j d).map (fun x => x.content)) ∧
    (firstIdxWhere (fun x => x.id == d.id) s.documents = none →
      update_document enc s d = add_document enc s d ∧
      update_document_encodes s d = [d.content]) := by
  constructor
  · intro j hj
    have hup : update_document enc s d
        = build_index enc s (s.documents.set j d) := by
      unfold update_document
      rw [hidx]
      simp only [hj]
    refine ⟨hup, ?_, ?_, ?_⟩
    · rw [hup, build_index_documents]
    · rw [hup, build_index_documents, List.length_set]
    · unfold update_document_encodes
      rw [hidx]
      simp only [hj]
      rfl
  · intro hnone
    constructor
    · unfold update_document
      rw [hidx]
      simp only [hnone]
    · unfold update_document_encodes
      rw [hidx]
      simp only [hnone]
      unfold add_document_encodes
      rw [hidx]

/-- C6, witness: the update theorem applied to a ready two-document state with
the updated id present at position 0. -/
theorem C6_update_witness :
    update_document encConst stAB docC
      = build_index encConst stAB (stAB.documents.set 0 docC) ∧
    update_document_encodes stAB docC
      = (stAB.documents.set 0 docC).map (fun x => x.content) :=
  have h := (C6_update encConst stAB [[(0 : ℚ)], [(0 : ℚ)]] docC rfl).1 0 rfl
  ⟨h.1, h.2.2.2⟩

/-- C7, counterexample.  The claim says building with an empty document list
leaves the index Ready with zero entries.  On a fresh instance the empty batch
makes `embeddings.shape[1]` raise; the exception is caught, and `self.index`
stays `None`: the index remains Unbuilt, not Ready. -/
theorem C7_counterexample :
    (build_index encConst initState []).index = none := by
  exact rfl

/-- C7, amended: `build` with an empty document list always fails internally,
setting the catalog to empty while leaving the vector index at its prior value
(so a fresh instance stays Unbuilt); and `search` on any index whose catalog
is empty returns the empty list rather than an error. -/
theorem C7_empty_build (enc : Encoder) (s : SState) (q : String) (k : ℕ) :
    build_index enc s [] = { index := s.index, documents := [] } ∧
    (s.documents = [] → search enc s q k = []) := by
  refine ⟨build_index_empty enc s, ?_⟩
  intro h0
  unfold search
  cases hI : s.index with
  | none => rfl
  | some store =>
    dsimp only
    cases hq : enc q with
    | none => rfl
    | some qv =>
      dsimp only
      by_cases hall : (faissTopK store qv k).all
          (fun h => decide (h.2 < s.documents.length)) = true
      · rw [if_pos hall]
        cases hfk : faissTopK store qv k with
        | nil => rfl
        | cons p ps =>
          exfalso
          have hp := List.all_eq_true.mp hall p (by rw [hfk]; simp)
          rw [h0] at hp
          simp at hp
      · rw [if_neg hall]

/-- C7, witness: the empty-build/empty-search theorem applied to the concrete
stale state with an empty catalog. -/
theorem C7_empty_build_witness :
    build_index encConst stStale []
      = { index := stStale.index, documents := [] } ∧
    search encConst stStale "q" 5 = [] :=
  ⟨(C7_empty_build encConst stStale "q" 5).1,
    (C7_empty_build encConst stStale "q" 5).2 rfl⟩

/-- C8, counterexample.  The claim says every read-only operation invoked on an
Unbuilt index fails with `NotReadyError`.  The spec-side contract `searchSpec`
indeed errors with `notReady` on the fresh instance, but the code's `search`
catches its own internal `ValueError` and returns the normal value `[]`: the
call does not fail, so the caller can never observe the error. -/
theorem C8_counterexample :
    search encConst initState "q" 5 = [] ∧
    searchSpec encConst initState "q" 5 = Except.error SemError.notReady := by
  exact ⟨rfl, rfl⟩

/-- C8, amended: read-only operations on an Unbuilt index do not propagate any
error: each raises `ValueError` internally, catches it, logs it and returns a
normal default value — `[]` for `search`, `get_similar_documents` and
`cluster_documents`, and `0.0` for `calculate_similarity`. -/
theorem C8_unbuilt_defaults (enc : Encoder) (s : SState) (q i1 i2 : String)
    (k n : ℕ) (labels : List ℕ) (h : s.index = none) :
    search enc s q k = [] ∧
    get_similar_documents enc s i1 k = [] ∧
    calculate_similarity enc s i1 i2 = SimOutcome.zero ∧
    cluster_documents enc labels s n = [] := by
  refine ⟨?_, ?_, ?_, ?_⟩
  · unfold search
    rw [h]
  · unfold get_similar_documents
    rw [h]
  · unfold calculate_similarity get_document_embedding
    rw [h]
    rfl
  · unfold cluster_documents
    rw [h]

/-- C8, witness: the unbuilt-defaults theorem applied to the fresh instance. -/
theorem C8_unbuilt_defaults_witness :
    search encConst initState "q" 5 = [] ∧
    get_similar_documents encConst initState "1" 5 = [] ∧
    calculate_similarity encConst initState "1" "2" = SimOutcome.zero ∧
    cluster_documents encConst [] initState 5 = [] :=
  C8_unbuilt_defaults encConst initState "q" "1" "2" 5 5 [] rfl

/-- C9, counterexample.  The claim says `calculate_similarity` fails with
`NotFoundError` when either id is absent.  The spec-side contract `calcSimSpec`
errors with `notFound` for the absent id `"zz"`, but the code catches the
`ValueError` inside `get_document_embedding`, gets an empty embedding back,
and returns the normal value `0.0` — no error reaches the caller. -/
theorem C9_counterexample :
    calculate_similarity encOne stA "1" "zz" = SimOutcome.zero ∧
    calcSimSpec encOne stA "1" "zz" = Except.error SemError.notFound := by
  exact ⟨rfl, rfl⟩

/-- C9, amended: `calculate_similarity` never raises.  With either id absent it
returns `0.0` (the internal not-found error is swallowed by
`get_document_embedding`, whose empty result trips the `size == 0` check).
With both ids present and their contents re-encoding to nonempty equal-length
vectors it returns the float `dot / (‖e1‖ * ‖e2‖)` — with no zero-magnitude
guard, so zero vectors reach the division as an IEEE `0/0` — and the
Cauchy-Schwarz bound `dot² ≤ ‖e1‖² * ‖e2‖²` holds, which puts the value in
`[-1, 1]` whenever both norms are nonzero. -/
theorem C9_similarity (enc : Encoder) (s : SState) (store : List Vec)
    (i1 i2 : String) (hidx : s.index = some store) :
    (s.documents.find? (fun d => d.id == i1) = none ∨
        s.documents.find? (fun d => d.id == i2) = none →
      calculate_similarity enc s i1 i2 = SimOutcome.zero) ∧
    (∀ d1 d2 e1 e2,
      s.documents.find? (fun d => d.id == i1) = some d1 →
      s.documents.find? (fun d => d.id == i2) = some d2 →
      enc d1.content = some e1 → enc d2.content = some e2 →
      e1 ≠ [] → e2 ≠ [] → e1.length = e2.length →
      calculate_similarity enc s i1 i2
        = SimOutcome.ratio (dotQ e1 e2) (normSq e1) (normSq e2) ∧
      dotQ e1 e2 ^ 2 ≤ normSq e1 * normSq e2 ∧
      0 ≤ normSq e1 ∧ 0 ≤ normSq e2) := by
  constructor
  · intro habs
    unfold calculate_similarity
    rcases habs with h | h
    · rw [get_document_embedding_absent enc s store i1 hidx h]
      rfl
    · rw [get_document_embedding_absent enc s store i2 hidx h]
      simp
  · intro d1 d2 e1 e2 hf1 hf2 he1 he2 hne1 hne2 hlen
    have hg1 := get_document_embedding_present enc s store i1 d1 e1 hidx hf1 he1
    have hg2 := get_document_embedding_present enc s store i2 d2 e2 hidx hf2 he2
    refine ⟨?_, dotQ_sq_le e1 e2, normSq_nonneg e1, normSq_nonneg e2⟩
    unfold calculate_similarity
    rw [hg1, hg2]
    rw [if_neg (by simp [List.isEmpty_iff, hne1, hne2]), if_neg (by simp [hlen])]

/-- C9, witness: the similarity theorem applied with both ids present and the
constant nonzero provider. -/
theorem C9_similarity_witness :
    calculate_similarity encOne stAB "1" "2"
      = SimOutcome.ratio (dotQ [(1 : ℚ)] [(1 : ℚ)]) (normSq [(1 : ℚ)])
          (normSq [(1 : ℚ)]) ∧
    dotQ [(1 : ℚ)] [(1 : ℚ)] ^ 2 ≤ normSq [(1 : ℚ)] * normSq [(1 : ℚ)] ∧
    0 ≤ normSq [(1 : ℚ)] ∧ 0 ≤ normSq [(1 : ℚ)] :=
  (C9_similarity encOne stAB [[(0 : ℚ)], [(0 : ℚ)]] "1" "2" rfl).2
    docA docB [(1 : ℚ)] [(1 : ℚ)] rfl rfl rfl rfl (by decide) (by decide) rfl

/-- C10, confirmed: `clear_index`, invoked in any state, resets the instance to
exactly the freshly-constructed state (`index = None`, empty catalog), so
every subsequent operation — mutating or read-only — behaves exactly as on a
never-built index.  This is the Ready-to-Unbuilt transition absent from the
spec's state machine. -/
theorem C10_clear_index (s : SState) :
    clear_index s = initState ∧
    (clear_index s).index = none ∧
    (clear_index s).documents = [] ∧
    (∀ enc op, applyOp enc (clear_index s) op = applyOp enc initState op) ∧
    (∀ enc q k, search enc (clear_index s) q k = search enc initState q k) ∧
    (∀ enc i1 i2, calculate_similarity enc (clear_index s) i1 i2
      = calculate_similarity enc initState i1 i2) := by
  exact ⟨rfl, rfl, rfl, fun _ _ => rfl, fun _ _ _ => rfl, fun _ _ _ => rfl⟩
